import Mathlib

/-!
Verification development for the NextClient HTTP request builder.

The TypeScript sources are shallowly embedded:
* JS values flowing through the encoders become the inductive `JValue`.
* `FormData` becomes a list of `(fieldName, FormValue)` pairs; where object
  identity and in-place mutation matter (`FormRequest.append`), a small
  explicit heap of `FormData` cells is used.
* `URLSearchParams` becomes a list of `(key, value)` string pairs with the
  standard `set` / `get` semantics.
* Fallible JS code (TypeError thrown by `value.toString()` on null/undefined,
  `Object.entries(null)`) is embedded with `Except`.
-/

set_option maxHeartbeats 1000000

/-- HTTP methods, after `TMethads` in `to.ts`. -/
inductive Method where
  | GET | HEAD | OPTIONS | POST | PUT | DELETE | PATCH
deriving DecidableEq, Repr

/-- JSON-like JavaScript values handled by the encoders: scalars, null,
undefined, `File` objects (identified by their name), arrays, and plain
objects (ordered key/value lists, matching JS insertion-order iteration). -/
inductive JValue where
  | vNull
  | vUndefined
  | bool (b : Bool)
  | num (n : Int)
  | str (s : String)
  | file (name : String)
  | arr (elems : List JValue)
  | obj (fields : List (String × JValue))
deriving Repr

/-- A value stored in a `FormData` field: a UTF-8 string or a file. -/
inductive FormValue where
  | text (s : String)
  | file (name : String)
deriving DecidableEq, Repr

/-- One `FormData` entry. -/
abbrev FormField := String × FormValue

mutual
/-- JS string conversion `String(v)` as used by `value?.toString() || ""` in
the encoders: null and undefined degrade to the empty string, arrays are
comma-joined (JS `Array.prototype.toString`, where null/undefined elements
join as empty strings), plain objects print `[object Object]`, `File`
objects print `[object File]`. -/
def jsToString : JValue → String
  | .vNull => ""
  | .vUndefined => ""
  | .bool b => if b then "true" else "false"
  | .num n => toString n
  | .str s => s
  | .file _ => "[object File]"
  | .arr xs => jsJoin xs
  | .obj _ => "[object Object]"

/-- JS `Array.prototype.join(",")` over the string conversions. -/
def jsJoin : List JValue → String
  | [] => ""
  | [x] => jsToString x
  | x :: rest => jsToString x ++ "," ++ jsJoin rest
end

/-- JS truthiness of a `JValue` (`if (data)`): null, undefined, `false`, `0`
and the empty string are falsy; every object, array and file is truthy. -/
def jsTruthy : JValue → Bool
  | .vNull => false
  | .vUndefined => false
  | .bool b => b
  | .num n => n != 0
  | .str s => s ≠ ""
  | .file _ => true
  | .arr _ => true
  | .obj _ => true

mutual
/-- One iteration of the `for (const key in jsonObject)` loop body of
`ToPath.jsonToFormData` (`to.ts`, identical in `Parser.jsonToFormData` of
`index.ts`): the fields appended for a single `key`/`value` pair given the
current `parentKey`. -/
def encodeEntry (key : String) (value : JValue) (parentKey : String) : List FormField :=
  let formKey := if parentKey ≠ "" then parentKey ++ "[" ++ key ++ "]" else key
  match value with
  | .file name =>
      -- `const formKeyFile = parentKey || key; formData.append(formKeyFile, value)`
      let formKeyFile := if parentKey ≠ "" then parentKey else key
      [(formKeyFile, .file name)]
  | .arr [] =>
      -- empty array: `formData.append(formKey, "")`
      [(formKey, .text "")]
  | .arr elems =>
      encodeArrayItems formKey elems
  | .obj fields =>
      -- nested object: recurse with `parentKey := formKey`
      encodeFields fields formKey
  | v =>
      -- primitives, null, undefined: `formData.append(formKey, value?.toString() || "")`
      [(formKey, .text (jsToString v))]

/-- The `value.forEach((item, index) => ...)` loop over a non-empty array:
files are appended under the unindexed `formKey`, other items under
`formKey[index]` with their string conversion. -/
def encodeArrayItems (formKey : String) (elems : List JValue) (index : Nat := 0) : List FormField :=
  match elems with
  | [] => []
  | item :: rest =>
      let field :=
        match item with
        | .file name => (formKey, FormValue.file name)
        | it => (formKey ++ "[" ++ toString index ++ "]", FormValue.text (jsToString it))
      field :: encodeArrayItems formKey rest (index + 1)

/-- The whole `for … in` loop of `jsonToFormData` over an object's fields. -/
def encodeFields (fields : List (String × JValue)) (parentKey : String) : List FormField :=
  match fields with
  | [] => []
  | (key, value) :: rest => encodeEntry key value parentKey ++ encodeFields rest parentKey
end

/-- `ToPath.jsonToFormData(jsonObject, formData = new FormData(), parentKey = "")`:
appends the encoded fields of `jsonObject` to the accumulating form. -/
def jsonToFormData (jsonObject : List (String × JValue))
    (formData : List FormField := []) (parentKey : String := "") : List FormField :=
  formData ++ encodeFields jsonObject parentKey

example : jsonToFormData [("a", .arr [])] = [("a", .text "")] := rfl
example : jsonToFormData [("a", .obj [("b", .num 1)])] = [("a[b]", .text "1")] := rfl
example : jsonToFormData [("files", .arr [.file "f1", .file "f2"])] =
    [("files", .file "f1"), ("files", .file "f2")] := rfl
example : jsonToFormData [("a", .vNull)] = [("a", .text "")] := rfl
example : jsonToFormData [("p", .obj [("k", .file "f")])] = [("p", .file "f")] := rfl

/-! ### URLSearchParams model -/

/-- Replace the value of the first pair named `k` and drop every later pair
named `k` (the WHATWG `URLSearchParams.set` update step). -/
def setFirst : List (String × String) → String → String → List (String × String)
  | [], _, _ => []
  | p :: rest, k, v =>
      if p.1 = k then (k, v) :: rest.filter (fun q => q.1 ≠ k)
      else p :: setFirst rest k v

/-- `URLSearchParams.set(k, v)`: overwrite the existing pair named `k`
(keeping its position, removing duplicates) or append a fresh pair. -/
def uspSet (ps : List (String × String)) (k v : String) : List (String × String) :=
  if ps.any (fun p => p.1 = k) then setFirst ps k v else ps ++ [(k, v)]

/-- `URLSearchParams.get(k)`: the value of the first pair named `k`. -/
def uspGet (ps : List (String × String)) (k : String) : Option String :=
  (ps.find? (fun p => p.1 = k)).map (fun p => p.2)

/-! ### Query encoder (`Parser.setSearchParams`, `index.ts`)

```js
const addParam = (key, value) => {
  if (typeof value === "object" && !Array.isArray(value)) {
    Object.entries(value).forEach(([nestedKey, nestedValue]) => {
      addParam(`${prefix}${key}[${nestedKey}]`, nestedValue);
    });
  } else {
    searchParams.set(prefix ? `${prefix}${key}` : key, value.toString());
  }
};
Object.entries(params).forEach(([key, value]) => addParam(key, value));
```

`typeof value === "object"` holds for null, arrays, plain objects and `File`
objects; `Object.entries(null)` throws a `TypeError`, as does
`undefined.toString()` in the `else` branch; `Object.entries` of a `File`
is empty (no enumerable own properties).  Throws are embedded as
`Except.error`. The closed-over `prefix` parameter is named `pfx` here. -/

mutual
/-- The `addParam` closure: updates the accumulated pair list `ps` for one
`key`/`value`, or fails with the `TypeError` the JS code would throw. -/
def addParam (pfx : String) (ps : List (String × String)) (key : String) :
    JValue → Except String (List (String × String))
  | .vNull => .error "TypeError: Cannot convert undefined or null to object"
  | .vUndefined => .error "TypeError: Cannot read properties of undefined (reading toString)"
  | .obj fields => addParamList pfx ps key fields
  | .file _ => .ok ps
  | v => .ok (uspSet ps (if pfx ≠ "" then pfx ++ key else key) (jsToString v))

/-- The `Object.entries(value).forEach` loop inside the nested-object branch
of `addParam`; an exception from any entry aborts the loop. -/
def addParamList (pfx : String) (ps : List (String × String)) (key : String) :
    List (String × JValue) → Except String (List (String × String))
  | [] => .ok ps
  | (nestedKey, nestedValue) :: rest =>
      match addParam pfx ps (pfx ++ key ++ "[" ++ nestedKey ++ "]") nestedValue with
      | .error e => .error e
      | .ok ps' => addParamList pfx ps' key rest
end

/-- The `Object.entries(params).forEach(([key, value]) => addParam(key, value))`
top-level loop; an exception from any entry aborts the loop. -/
def setSearchParamsLoop (pfx : String) (ps : List (String × String)) :
    List (String × JValue) → Except String (List (String × String))
  | [] => .ok ps
  | (key, value) :: rest =>
      match addParam pfx ps key value with
      | .error e => .error e
      | .ok ps' => setSearchParamsLoop pfx ps' rest

/-- `Parser.setSearchParams(params, prefix = "")` from `index.ts`: runs
`addParam` over the entries of `params`, starting from a fresh
`URLSearchParams`. -/
def setSearchParams (params : List (String × JValue)) (pfx : String := "") :
    Except String (List (String × String)) :=
  setSearchParamsLoop pfx [] params

example : setSearchParams [("a", .num 1)] = .ok [("a", "1")] := rfl
example : setSearchParams [("a", .obj [("b", .num 1)])] = .ok [("a[b]", "1")] := rfl
example : setSearchParams [("k", .arr [.num 1, .num 2])] = .ok [("k", "1,2")] := rfl
example : setSearchParams [("a", .obj [("b", .num 1)]), ("a[b]", .num 2)] =
    .ok [("a[b]", "2")] := rfl
example : (setSearchParams [("a", .vNull)]).isOk = false := rfl
example : (setSearchParams [("a", .vUndefined)]).isOk = false := rfl

/-! ### JSON serialization (`JSON.stringify`) -/

/-- Quote a string as a JSON string literal, escaping backslash and quote. -/
def jsonQuote (s : String) : String :=
  "\"" ++ String.join (s.toList.map fun c =>
    if c = '\\' then "\\\\" else if c = '"' then "\\\"" else String.singleton c) ++ "\""

mutual
/-- `JSON.stringify(v)`; `none` models the `undefined` result (stringifying
`undefined` itself).  Inside arrays undefined serializes as `null`; inside
objects undefined-valued properties are omitted; a `File` has no enumerable
own properties and serializes as the empty object. -/
def jsonStringify : JValue → Option String
  | .vNull => some "null"
  | .vUndefined => none
  | .bool b => some (if b then "true" else "false")
  | .num n => some (toString n)
  | .str s => some (jsonQuote s)
  | .file _ => some "\x7b\x7d"
  | .arr xs => some ("[" ++ ",".intercalate (jsonStringifyElems xs) ++ "]")
  | .obj fs => some ("\x7b" ++ ",".intercalate (jsonStringifyProps fs) ++ "\x7d")

/-- Array elements, `undefined` rendered as `null`. -/
def jsonStringifyElems : List JValue → List String
  | [] => []
  | x :: rest => ((jsonStringify x).getD "null") :: jsonStringifyElems rest

/-- Object properties, undefined-valued ones omitted. -/
def jsonStringifyProps : List (String × JValue) → List String
  | [] => []
  | (k, v) :: rest =>
      match jsonStringify v with
      | some s => (jsonQuote k ++ ":" ++ s) :: jsonStringifyProps rest
      | none => jsonStringifyProps rest
end

/-- A request body handed to `fetch`: a `FormData` object or a raw string. -/
inductive Body where
  | formData (fields : List FormField)
  | raw (s : String)
deriving DecidableEq, Repr

/-- The `body` argument of the `fetch` call in `FormRequest.send`
(`form.ts`): `this.method === "GET" ? null : this.formData`. -/
def FormRequest.fetchBody (method : Method) (formFields : List FormField) : Option Body :=
  if method = .GET then none else some (.formData formFields)

set_option linter.unusedVariables false in
/-- The `body` argument of the `fetch` call in `JsonRequest.send`
(`json.ts`): `JSON.stringify(this.formData)`, with no check of the method. -/
def JsonRequest.fetchBody (method : Method) (payload : JValue) : Option Body :=
  (jsonStringify payload).map Body.raw

/-- The body computed by `Executer.fetcher` (`index.ts`): null unless the
method differs from GET, in which case FormData wins when `isForm && formData`
holds and a truthy `data` is JSON-stringified otherwise. -/
def Executer.fetchBody (method : Method) (isForm : Bool)
    (formDataOpt : Option (List FormField)) (data : Option JValue) : Option Body :=
  if method ≠ .GET then
    match isForm, formDataOpt with
    | true, some fd => some (.formData fd)
    | _, _ =>
        match data with
        | some d => if jsTruthy d then (jsonStringify d).map Body.raw else none
        | none => none
  else none

example : JsonRequest.fetchBody .GET (.obj [("a", .num 1)]) =
    some (.raw "\x7b\"a\":1\x7d") := rfl
example : FormRequest.fetchBody .GET [("a", .text "1")] = none := rfl
example : Executer.fetchBody .GET true (some [("a", .text "1")]) none = none := rfl

/-! ### Response decoding (`FormRequest.send` / `JsonRequest.send`, post-fetch) -/

/-- Substring test (JS `String.prototype.includes`). -/
def strContains (s pat : String) : Bool :=
  s.toList.tails.any (fun t => pat.toList.isPrefixOf t)

/-- A completed `fetch` response: status, `Content-Type` header (empty
string when absent), body text, and the result of attempting
`response.json()` (`none` when the body is not valid JSON, in which case
the JS promise rejects). -/
structure Resp where
  status : Nat
  contentType : String
  textBody : String
  jsonResult : Option JValue

/-- `response.ok`: status in the inclusive range 200–299. -/
def Resp.ok (r : Resp) : Bool := 200 ≤ r.status && r.status ≤ 299

/-- A decoded error body: the JSON parse when it succeeds, else raw text. -/
inductive ErrBody where
  | json (v : JValue)
  | text (s : String)

/-- The outcome of `send` after the transport call: a normal result,
a thrown `HttpError` (the spec's `ClassifiedError`, carrying the status
code), or a thrown generic `Error` (no status code). -/
inductive SendOutcome where
  | ok (statusCode : Nat) (data : ErrBody)
  | httpError (statusCode : Nat) (body : ErrBody)
  | genericError (message : String)

/-- The error body of a non-ok response: `await clonedResponse.json()`
falling back to `await response.text()` when the JSON parse rejects. -/
def errorBodyOf (r : Resp) : ErrBody :=
  match r.jsonResult with
  | some j => .json j
  | none => .text r.textBody

/-- The status/content-type decision sequence of `FormRequest.send`
(`form.ts` lines 80–110; `JsonRequest.send` is identical): non-ok statuses
throw `HttpError(status, json-else-text body)`; ok responses parse JSON
when the content type contains `application/json` (a parse failure there
propagates as a generic error), return text when it contains `text/` or is
empty, and otherwise throw a generic unsupported-content-type `Error`. -/
def decodeResponse (r : Resp) : SendOutcome :=
  if r.ok then
    if strContains r.contentType "application/json" then
      match r.jsonResult with
      | some j => .ok r.status (.json j)
      | none => .genericError "SyntaxError: Unexpected token in JSON"
    else if strContains r.contentType "text/" || r.contentType = "" then
      .ok r.status (.text r.textBody)
    else
      .genericError ("Unsupported content type: " ++ r.contentType)
  else
    .httpError r.status (errorBodyOf r)

/-! ### Builder objects and mutation

`FormData` objects are aliased between `FormRequest` instances
(`FormRequest.append` calls `this.formData.append(...)` and hands the same
object to the new instance), so `FormData` lives in an explicit heap of
cells and a `FormRequest` holds a reference into it.  The other builder
fields are plain values copied by the constructors. -/

/-- A heap of `FormData` objects: total cell map plus allocation cursor. -/
structure FDHeap where
  cells : Nat → List FormField
  next : Nat

/-- Read a `FormData` cell. -/
def FDHeap.read (h : FDHeap) (r : Nat) : List FormField := h.cells r

/-- Overwrite a `FormData` cell in place. -/
def FDHeap.write (h : FDHeap) (r : Nat) (fs : List FormField) : FDHeap :=
  { h with cells := fun i => if i = r then fs else h.cells i }

/-- `new FormData()` seeded with `fs`: allocate a fresh cell. -/
def FDHeap.alloc (h : FDHeap) (fs : List FormField) : FDHeap × Nat :=
  ({ cells := fun i => if i = h.next then fs else h.cells i, next := h.next + 1 }, h.next)

/-- The `NextClientConfig` as used by `send`: only its `debug` flag is read
(`this.config?.debug`). -/
structure ClientConfig where
  debug : Bool
deriving DecidableEq, Repr

/-- A `FormRequest` instance (`form.ts`): a reference to its `FormData`
cell plus the plain constructor arguments. -/
structure FormReq where
  fdRef : Nat
  path : String
  host : String
  initHeaders : List (String × String)
  method : Method
  searchParams : List (String × String)
  config : Option ClientConfig

/-- Whether `send` on this instance emits debug logging:
`if (this.config?.debug)`. -/
def FormReq.debugOn (r : FormReq) : Bool :=
  match r.config with
  | some c => c.debug
  | none => false

/-- `FormRequest.append(key, file)` (`form.ts` lines 45–55): appends to the
receiver's `FormData` object in place, then constructs a new `FormRequest`
around the *same* `FormData`, passing `path`, `host`, `init`, `method` and
`searchParams` — and no `config` argument, so the new instance's config is
`undefined`. -/
def FormRequest.append (h : FDHeap) (r : FormReq) (key : String) (file : FormValue) :
    FDHeap × FormReq :=
  let h' := h.write r.fdRef (h.read r.fdRef ++ [(key, file)])
  (h', { fdRef := r.fdRef, path := r.path, host := r.host, initHeaders := r.initHeaders,
         method := r.method, searchParams := r.searchParams, config := none })

/-- A `ToPath` instance (`to.ts`): plain constructor arguments. -/
structure ToPathSt where
  path : String
  host : String
  initHeaders : List (String × String)
  method : Method
  searchParams : List (String × String)
  config : Option ClientConfig

/-- `ToPath.form(data)` (`to.ts`): builds a fresh `FormData`
(`data ? this.jsonToFormData(data) : new FormData()`) and wraps it in a new
`FormRequest` carrying the receiver's fields, receiver untouched. -/
def ToPath.form (h : FDHeap) (t : ToPathSt) (data : Option (List (String × JValue))) :
    FDHeap × FormReq :=
  let fields := match data with
    | some d => jsonToFormData d
    | none => []
  let (h', ref) := h.alloc fields
  (h', { fdRef := ref, path := t.path, host := t.host, initHeaders := t.initHeaders,
         method := t.method, searchParams := t.searchParams, config := t.config })

/-- A `JsonRequest` instance (`json.ts`): plain constructor arguments. -/
structure JsonReq where
  payload : Option JValue
  path : String
  host : String
  initHeaders : List (String × String)
  method : Method
  searchParams : List (String × String)
  config : Option ClientConfig

/-- `ToPath.json(data)` (`to.ts`): constructs a new `JsonRequest` from the
receiver's fields; no `FormData` is created or written, so the heap is
returned unchanged. -/
def ToPath.json (h : FDHeap) (t : ToPathSt) (data : Option JValue) : FDHeap × JsonReq :=
  (h, { payload := data, path := t.path, host := t.host, initHeaders := t.initHeaders,
        method := t.method, searchParams := t.searchParams, config := t.config })

/-- JS object-spread update `\x7b ...obj, [k]: v \x7d`: overwrite an existing
property in place or append a new one. -/
def recSpreadSet (ps : List (String × JValue)) (k : String) (v : JValue) :
    List (String × JValue) :=
  if ps.any (fun p => p.1 = k) then
    ps.map (fun p => if p.1 = k then (k, v) else p)
  else ps ++ [(k, v)]

/-- First-match property lookup on a JS object model. -/
def objGet (ps : List (String × JValue)) (k : String) : Option JValue :=
  (ps.find? (fun p => p.1 = k)).map (fun p => p.2)

/-- A `NextBodyAppend` instance (`index.ts`): its mutable `config`,
restricted to the pieces the chain steps touch. -/
structure AppendSt where
  data : List (String × JValue)
  headers : List (String × String)

/-- `NextBodyAppend.set(key, value)` (`index.ts` lines 234–240): reassigns
`this.config.data` to the spread-updated object and ends with
`return this`.  The result pair is (receiver after the call, returned
value); both components are the same object. -/
def NextBodyAppend.set (s : AppendSt) (key : String) (value : JValue) :
    AppendSt × AppendSt :=
  let s' := { s with data := recSpreadSet s.data key value }
  (s', s')

/-- `NextBodyAppend.delete(key)` (`index.ts` lines 247–252): deletes the
property from `this.config.data` in place and ends with `return this`.
The result pair is (receiver after the call, returned value). -/
def NextBodyAppend.deleteKey (s : AppendSt) (key : String) : AppendSt × AppendSt :=
  let s' := { s with data := s.data.filter (fun p => p.1 ≠ key) }
  (s', s')

/-- Spread-merge of string records (`\x7b ...a, ...b \x7d`): keys of `b`
override, existing keys keep their position. -/
def recSpreadMerge (a b : List (String × String)) : List (String × String) :=
  b.foldl (fun acc kv =>
    if acc.any (fun p => p.1 = kv.1) then
      acc.map (fun p => if p.1 = kv.1 then kv else p)
    else acc ++ [kv]) a

/-- `NextBodyAppend.headers(headers)` (`index.ts` lines 259–265): reassigns
`this.config.headers` to the spread-merge and ends with `return this`.
The result pair is (receiver after the call, returned value). -/
def NextBodyAppend.headersStep (s : AppendSt) (hs : List (String × String)) :
    AppendSt × AppendSt :=
  let s' := { s with headers := recSpreadMerge s.headers hs }
  (s', s')

/-! ## Helper lemmas -/

/-- After the overwrite `map`, the first pair named `k` is `(k, v)`,
provided some pair named `k` existed. -/
lemma find?_map_set {α : Type} (k : String) (v : α) :
    ∀ (ps : List (String × α)), ps.any (fun q => q.1 = k) = true →
      List.find? (fun q => q.1 = k)
        (ps.map (fun q => if q.1 = k then (k, v) else q)) = some (k, v) := by
  intro ps
  induction ps with
  | nil => simp
  | cons p rest ih =>
    intro hany
    by_cases hp : p.1 = k
    · simp [List.find?, hp]
    · have hr : rest.any (fun q => q.1 = k) = true := by
        simpa [List.any_cons, hp] using hany
      simp [List.find?, hp, ih hr]

/-- Appending a fresh pair `(k, v)` to a list with no pair named `k` makes
it the first (and only) pair named `k`. -/
lemma find?_append_not_found {α : Type} (k : String) (v : α) :
    ∀ (ps : List (String × α)), ps.any (fun q => q.1 = k) = false →
      List.find? (fun q => q.1 = k) (ps ++ [(k, v)]) = some (k, v) := by
  intro ps
  induction ps with
  | nil => simp [List.find?]
  | cons p rest ih =>
    intro hany
    have hp : ¬ p.1 = k := by
      intro h
      simp [List.any_cons, h] at hany
    have hr : rest.any (fun q => q.1 = k) = false := by
      simpa [List.any_cons, hp] using hany
    simp [List.find?, hp, ih hr]

/-- Every key of `setFirst ps k v` is `k` or a key of `ps`. -/
lemma mem_keys_setFirst (k v : String) :
    ∀ (ps : List (String × String)) (x : String),
      x ∈ (setFirst ps k v).map Prod.fst → x = k ∨ x ∈ ps.map Prod.fst := by
  intro ps
  induction ps with
  | nil => simp [setFirst]
  | cons p rest ih =>
    intro x hx
    by_cases hp : p.1 = k
    · rw [setFirst, if_pos hp, List.map_cons] at hx
      rcases List.mem_cons.mp hx with h | h
      · exact Or.inl h
      · obtain ⟨q, hq, hqx⟩ := List.mem_map.mp h
        exact Or.inr (List.mem_map.mpr
          ⟨q, List.mem_cons_of_mem p (List.mem_of_mem_filter hq), hqx⟩)
    · rw [setFirst, if_neg hp, List.map_cons] at hx
      rcases List.mem_cons.mp hx with h | h
      · exact Or.inr (h ▸ List.mem_map.mpr ⟨p, List.mem_cons_self p rest, rfl⟩)
      · rcases ih x h with h1 | h2
        · exact Or.inl h1
        · obtain ⟨q, hq, hqx⟩ := List.mem_map.mp h2
          exact Or.inr (List.mem_map.mpr ⟨q, List.mem_cons_of_mem p hq, hqx⟩)

/-- `setFirst` preserves distinctness of the key list. -/
lemma nodup_keys_setFirst (k v : String) :
    ∀ (ps : List (String × String)), (ps.map Prod.fst).Nodup →
      ((setFirst ps k v).map Prod.fst).Nodup := by
  intro ps
  induction ps with
  | nil => simp [setFirst]
  | cons p rest ih =>
    intro h
    rw [List.map_cons, List.nodup_cons] at h
    obtain ⟨hpn, hrest⟩ := h
    by_cases hp : p.1 = k
    · rw [setFirst, if_pos hp, List.map_cons, List.nodup_cons]
      constructor
      · intro hk
        obtain ⟨q, hq, hqk⟩ := List.mem_map.mp hk
        have := (List.mem_filter.mp hq).2
        simp [hqk] at this
      · exact List.Nodup.sublist
          (List.Sublist.map Prod.fst (List.filter_sublist rest)) hrest
    · rw [setFirst, if_neg hp, List.map_cons, List.nodup_cons]
      refine ⟨?_, ih hrest⟩
      intro hmem
      rcases mem_keys_setFirst k v rest p.1 hmem with h1 | h2
      · exact hp h1
      · exact hpn h2

/-- `URLSearchParams.set` preserves distinctness of the key list. -/
lemma nodup_keys_uspSet (ps : List (String × String)) (k v : String)
    (h : (ps.map Prod.fst).Nodup) : ((uspSet ps k v).map Prod.fst).Nodup := by
  unfold uspSet
  by_cases hany : ps.any (fun p => p.1 = k) = true
  · rw [if_pos hany]
    exact nodup_keys_setFirst k v ps h
  · rw [if_neg hany]
    have hknot : k ∉ ps.map Prod.fst := by
      intro hk
      obtain ⟨q, hq, hqk⟩ := List.mem_map.mp hk
      exact hany (List.any_eq_true.mpr ⟨q, hq, by simp [hqk]⟩)
    rw [List.map_append]
    simp only [List.nodup_append, List.map_cons, List.map_nil]
    have hdisj : (ps.map Prod.fst).Disjoint [k] := by
      intro x hx hxk
      rw [List.mem_singleton] at hxk
      exact hknot (hxk ▸ hx)
    exact ⟨h, List.nodup_singleton k, hdisj⟩

/-- The first pair named `k` after `setFirst` is `(k, v)`, provided some
pair named `k` existed. -/
lemma find?_setFirst (k v : String) :
    ∀ (ps : List (String × String)), ps.any (fun p => p.1 = k) = true →
      List.find? (fun p => p.1 = k) (setFirst ps k v) = some (k, v) := by
  intro ps
  induction ps with
  | nil => intro h; simp at h
  | cons p rest ih =>
    intro hany
    by_cases hp : p.1 = k
    · rw [setFirst, if_pos hp]
      simp [List.find?]
    · have hr : rest.any (fun p => p.1 = k) = true := by
        simpa [List.any_cons, hp] using hany
      rw [setFirst, if_neg hp]
      simp [List.find?, hp, ih hr]

/-- After `uspSet ps k v`, `get(k)` reads back `v`: a later `set` of the
same final key overwrites an earlier value. -/
lemma uspGet_uspSet (ps : List (String × String)) (k v : String) :
    uspGet (uspSet ps k v) k = some v := by
  unfold uspGet uspSet
  by_cases hany : ps.any (fun p => p.1 = k) = true
  · rw [if_pos hany, find?_setFirst k v ps hany]
    rfl
  · rw [if_neg hany, find?_append_not_found k v ps (Bool.eq_false_iff.mpr hany)]
    rfl

/-- The spread-update `\x7b ...obj, [k]: v \x7d` makes `v` the value seen
at `k`. -/
lemma objGet_recSpreadSet (ps : List (String × JValue)) (k : String) (v : JValue) :
    objGet (recSpreadSet ps k v) k = some v := by
  unfold objGet recSpreadSet
  by_cases hany : ps.any (fun q => q.1 = k) = true
  · rw [if_pos hany, find?_map_set k v ps hany]
    rfl
  · rw [if_neg hany, find?_append_not_found k v ps (Bool.eq_false_iff.mpr hany)]
    rfl

/-- After filtering out the pairs named `k`, no pair named `k` is found. -/
lemma objGet_filter_ne (ps : List (String × JValue)) (k : String) :
    objGet (ps.filter (fun p => p.1 ≠ k)) k = none := by
  simp only [objGet]
  have h : List.find? (fun p => p.1 = k) (ps.filter (fun p => p.1 ≠ k)) = none := by
    rw [List.find?_eq_none]
    intro x hx
    have hne := (List.mem_filter.mp hx).2
    simpa using hne
  rw [h]
  rfl

/-- Spread-merging a single header `(k, v)` on the right makes `v` the
value read back at `k`. -/
lemma uspGet_recSpreadMerge_single (a : List (String × String)) (k v : String) :
    uspGet (recSpreadMerge a [(k, v)]) k = some v := by
  unfold recSpreadMerge uspGet
  simp only [List.foldl_cons, List.foldl_nil]
  by_cases hany : a.any (fun p => p.1 = k) = true
  · rw [if_pos hany, find?_map_set k v a hany]
    rfl
  · rw [if_neg hany, find?_append_not_found k v a (Bool.eq_false_iff.mpr hany)]
    rfl

/-- Every successful `addParam` / `addParamList` run turns a pair list with
distinct keys into a pair list with distinct keys: all writes go through
`uspSet`.  Proved by strong induction on the size of the traversed value. -/
lemma addParam_preserves_nodup (n : Nat) :
    (∀ (v : JValue) (pfx key : String) (ps res : List (String × String)),
      sizeOf v ≤ n → (ps.map Prod.fst).Nodup →
      addParam pfx ps key v = Except.ok res → (res.map Prod.fst).Nodup)
    ∧ (∀ (fs : List (String × JValue)) (pfx key : String)
        (ps res : List (String × String)),
      sizeOf fs ≤ n → (ps.map Prod.fst).Nodup →
      addParamList pfx ps key fs = Except.ok res → (res.map Prod.fst).Nodup) := by
  induction n using Nat.strong_induction_on with
  | _ n ih =>
    constructor
    · intro v pfx key ps res hsz hnd heq
      cases v with
      | vNull => exact absurd heq (by simp [addParam])
      | vUndefined => exact absurd heq (by simp [addParam])
      | obj fields =>
          have hsz' : sizeOf fields < n := by
            have h1 : sizeOf (JValue.obj fields) = 1 + sizeOf fields := by simp
            omega
          exact (ih (sizeOf fields) hsz').2 fields pfx key ps res le_rfl hnd heq
      | file name =>
          have h : ps = res := by simpa [addParam] using heq
          exact h ▸ hnd
      | bool b =>
          have h : uspSet ps (if pfx ≠ "" then pfx ++ key else key)
              (jsToString (.bool b)) = res := by simpa [addParam] using heq
          exact h ▸ nodup_keys_uspSet ps _ _ hnd
      | num m =>
          have h : uspSet ps (if pfx ≠ "" then pfx ++ key else key)
              (jsToString (.num m)) = res := by simpa [addParam] using heq
          exact h ▸ nodup_keys_uspSet ps _ _ hnd
      | str s =>
          have h : uspSet ps (if pfx ≠ "" then pfx ++ key else key)
              (jsToString (.str s)) = res := by simpa [addParam] using heq
          exact h ▸ nodup_keys_uspSet ps _ _ hnd
      | arr xs =>
          have h : uspSet ps (if pfx ≠ "" then pfx ++ key else key)
              (jsToString (.arr xs)) = res := by simpa [addParam] using heq
          exact h ▸ nodup_keys_uspSet ps _ _ hnd
    · intro fs pfx key ps res hsz hnd heq
      cases fs with
      | nil =>
          have h : ps = res := by simpa [addParamList] using heq
          exact h ▸ hnd
      | cons kv rest =>
          obtain ⟨nk, nv⟩ := kv
          have hkv : sizeOf nv < n ∧ sizeOf rest < n := by
            have h1 : sizeOf ((nk, nv) :: rest) = 1 + sizeOf (nk, nv) + sizeOf rest := by
              simp
            have h2 : sizeOf (nk, nv) = 1 + sizeOf nk + sizeOf nv := by simp
            omega
          rw [addParamList] at heq
          cases e : addParam pfx ps (pfx ++ key ++ "[" ++ nk ++ "]") nv with
          | error msg => rw [e] at heq; exact absurd heq (by simp)
          | ok ps' =>
              rw [e] at heq
              have h1 := (ih (sizeOf nv) hkv.1).1 nv pfx
                (pfx ++ key ++ "[" ++ nk ++ "]") ps ps' le_rfl hnd e
              exact (ih (sizeOf rest) hkv.2).2 rest pfx key ps' res le_rfl h1 heq

/-- The top-level loop preserves key distinctness on success. -/
lemma setSearchParamsLoop_preserves_nodup :
    ∀ (params : List (String × JValue)) (pfx : String)
      (ps res : List (String × String)),
      (ps.map Prod.fst).Nodup →
      setSearchParamsLoop pfx ps params = Except.ok res →
      (res.map Prod.fst).Nodup := by
  intro params
  induction params with
  | nil =>
      intro pfx ps res hnd heq
      have h : ps = res := by simpa [setSearchParamsLoop] using heq
      exact h ▸ hnd
  | cons kv rest ih =>
      intro pfx ps res hnd heq
      obtain ⟨key, value⟩ := kv
      rw [setSearchParamsLoop] at heq
      cases e : addParam pfx ps key value with
      | error msg => rw [e] at heq; exact absurd heq (by simp)
      | ok ps' =>
          rw [e] at heq
          have h1 := (addParam_preserves_nodup (sizeOf value)).1 value pfx key ps ps'
            le_rfl hnd e
          exact ih pfx ps' res h1 heq

/-! ## Theorems -/

/-- **C3.** A file value appearing under key `k` inside a nested mapping
reached with a non-empty key prefix `p` is appended under the parent prefix
`p` itself (`keyPrefix || key`), not under the bracket-qualified `p[k]`;
at top level (empty prefix) it is appended under `k`.  Stated both for one
loop iteration (`encodeEntry`) and through `jsonToFormData` on a nested
mapping. -/
theorem c3_file_under_parent_key :
    (∀ (parentKey key name : String),
      encodeEntry key (JValue.file name) parentKey
        = [(if parentKey = "" then key else parentKey, FormValue.file name)])
    ∧ (∀ (a k fname : String),
      jsonToFormData [(a, JValue.obj [(k, JValue.file fname)])]
        = [(if a = "" then k else a, FormValue.file fname)]) := by
  constructor
  · intro parentKey key name
    by_cases h : parentKey = "" <;> simp [encodeEntry, h]
  · intro a k fname
    by_cases h : a = "" <;>
      simp [jsonToFormData, encodeFields, encodeEntry, h]

/-- **C4.** For every completed response whose status lies outside 200–299,
`send` throws an `HttpError` carrying that status code and the body obtained
by first attempting a JSON parse and falling back to the raw text only when
the parse fails; a normal result is never returned for such a response. -/
theorem c4_non_success_raises_http_error (r : Resp)
    (h : ¬(200 ≤ r.status ∧ r.status ≤ 299)) :
    decodeResponse r = SendOutcome.httpError r.status (errorBodyOf r)
    ∧ ∀ (sc : Nat) (d : ErrBody), decodeResponse r ≠ SendOutcome.ok sc d := by
  have hok : r.ok = false := by
    simp only [Resp.ok, Bool.and_eq_false_iff, decide_eq_false_iff_not]
    omega
  refine ⟨by simp [decodeResponse, hok], ?_⟩
  intro sc d
  simp [decodeResponse, hok]

/-- Witness for C4 at a concrete 404 response whose body is not JSON. -/
theorem c4_witness :
    decodeResponse ⟨404, "text/html", "not found", none⟩
      = SendOutcome.httpError 404 (errorBodyOf ⟨404, "text/html", "not found", none⟩) :=
  (c4_non_success_raises_http_error ⟨404, "text/html", "not found", none⟩ (by decide)).1

/-- **C5.** For every completed response with status in 200–299 whose
`Content-Type` neither contains `application/json` nor contains `text/` nor
is empty, `send` throws the generic unsupported-content-type `Error` — not
an `HttpError`, and carrying no status code. -/
theorem c5_unsupported_content_type (r : Resp)
    (h1 : 200 ≤ r.status ∧ r.status ≤ 299)
    (h2 : strContains r.contentType "application/json" = false)
    (h3 : strContains r.contentType "text/" = false)
    (h4 : r.contentType ≠ "") :
    decodeResponse r
      = SendOutcome.genericError ("Unsupported content type: " ++ r.contentType) := by
  have hok : r.ok = true := by
    simp only [Resp.ok, Bool.and_eq_true, decide_eq_true_eq]
    omega
  simp [decodeResponse, hok, h2, h3, h4]

/-- Witness for C5: a 200 response with `Content-Type: application/xml`. -/
theorem c5_witness :
    decodeResponse ⟨200, "application/xml", "<ok/>", none⟩
      = SendOutcome.genericError ("Unsupported content type: " ++ "application/xml") :=
  c5_unsupported_content_type ⟨200, "application/xml", "<ok/>", none⟩
    (by decide) (by decide) (by decide) (by decide)

/-- **C7.** Encoding the form payload `\x7ba: []\x7d` yields exactly one
field, named `a`, whose value is the empty string. -/
theorem c7_form_empty_array :
    jsonToFormData [("a", JValue.arr [])] = [("a", FormValue.text "")] := rfl

/-- **C9.** The query encoder throws a `TypeError` on a null leaf
(`Object.entries(null)`) and on an undefined leaf (`undefined.toString()`),
while the form encoder converts both to an empty-string field. -/
theorem c9_query_null_undefined_throws :
    setSearchParams [("a", JValue.vNull)]
        = Except.error "TypeError: Cannot convert undefined or null to object"
    ∧ setSearchParams [("a", JValue.vUndefined)]
        = Except.error "TypeError: Cannot read properties of undefined (reading toString)"
    ∧ jsonToFormData [("a", JValue.vNull)] = [("a", FormValue.text "")]
    ∧ jsonToFormData [("a", JValue.vUndefined)] = [("a", FormValue.text "")] :=
  ⟨rfl, rfl, rfl, rfl⟩

/-- **C10.** `r.append(key, file)` returns an instance with no client
config (so `send` from it never emits debug logging), wrapping the same
`FormData` cell as `r`; the appended field is visible through `r` because
the shared cell was mutated in place. -/
theorem c10_append_drops_config_shares_formdata
    (h : FDHeap) (r : FormReq) (key : String) (file : FormValue) :
    (FormRequest.append h r key file).2.config = none
    ∧ (FormRequest.append h r key file).2.debugOn = false
    ∧ (FormRequest.append h r key file).2.fdRef = r.fdRef
    ∧ (FormRequest.append h r key file).1.read r.fdRef
        = h.read r.fdRef ++ [(key, file)] := by
  refine ⟨rfl, rfl, rfl, ?_⟩
  simp [FormRequest.append, FDHeap.write, FDHeap.read]

/-- **C1, counterexample.** The query encoder does *not* emit bracketed
numeric-index keys for the array value `[1, 2]` under key `k`: it emits the
single pair `k = "1,2"`, and `k[0] = "1"` is absent.  (The
`!Array.isArray(value)` guard routes arrays to the scalar branch.) -/
theorem c1_counterexample :
    setSearchParams [("k", JValue.arr [JValue.num 1, JValue.num 2])]
        = Except.ok [("k", "1,2")]
    ∧ ("k[0]", "1") ∉ [("k", "1,2")] :=
  ⟨rfl, by decide⟩

/-- **C1, amended.** Arrays *are* special-cased by the `Array.isArray`
guard in the query encoder: an array value is not traversed by the
nested-object branch but encoded as one pair whose value is the JS string
conversion of the array — the comma-join of its elements' conversions. -/
theorem c1_amended_arrays_comma_joined (k : String) (xs : List JValue) :
    setSearchParams [(k, JValue.arr xs)] = Except.ok [(k, jsJoin xs)] := rfl

/-- **C2, counterexample.** A GET request executed through
`JsonRequest.send` carries a non-null body: `json.ts` passes
`JSON.stringify(this.formData)` to `fetch` without checking the method. -/
theorem c2_counterexample :
    JsonRequest.fetchBody Method.GET (JValue.obj [("a", JValue.num 1)])
        = some (Body.raw "\x7b\"a\":1\x7d")
    ∧ JsonRequest.fetchBody Method.GET (JValue.obj [("a", JValue.num 1)]) ≠ none :=
  ⟨rfl, by decide⟩

/-- **C2, amended.** GET requests are bodyless in the form pipeline
(`FormRequest.send` forces `body = null` for GET) and in the `index.ts`
`Executer` (the whole body computation is guarded by `method !== "GET"`),
but `JsonRequest.send` serializes the payload into the body regardless of
the method — its `fetch` body does not depend on the method at all. -/
theorem c2_amended_get_bodyless_except_json :
    (∀ (fd : List FormField), FormRequest.fetchBody Method.GET fd = none)
    ∧ (∀ (isForm : Bool) (fdO : Option (List FormField)) (dO : Option JValue),
        Executer.fetchBody Method.GET isForm fdO dO = none)
    ∧ (∀ (m m' : Method) (payload : JValue),
        JsonRequest.fetchBody m payload = JsonRequest.fetchBody m' payload) :=
  ⟨fun _ => rfl, fun _ _ _ => rfl, fun _ _ _ => rfl⟩

/-- Concrete heap with one empty, allocated `FormData` cell. -/
def heap0 : FDHeap := { cells := fun _ => [], next := 1 }

/-- Concrete `FormRequest` over the cell of `heap0`, with debug enabled. -/
def req0 : FormReq :=
  { fdRef := 0, path := "/upload", host := "https://api.example.com",
    initHeaders := [], method := Method.POST, searchParams := [],
    config := some { debug := true } }

/-- **C8, counterexample.** `FormRequest.append` is not a pure rebuild: it
appends into the receiver's `FormData` in place, so after the chain step the
original builder's captured form fields *have* changed. -/
theorem c8_counterexample :
    (FormRequest.append heap0 req0 "k" (FormValue.text "v")).1.read req0.fdRef
      ≠ heap0.read req0.fdRef := by
  simp [FormRequest.append, FDHeap.write, FDHeap.read, heap0, req0]

/-- **C8, amended.** `ToPath.form` allocates a fresh `FormData`, leaving
every existing cell unchanged, and `ToPath.json` touches no `FormData` at
all; but the chain is not uniformly immutable: `FormRequest.append`
mutates the shared `FormData` in place (the appended field is visible
through the receiver, whose cell the returned instance still references),
and `NextBodyAppend.set`, `delete` and `headers` each update the
receiver's config in place and return that very same mutated instance —
`set` makes the written value readable through it, `delete` removes the
key from it, `headers` makes a merged header readable through it — so
branches of a fluent chain can alias shared mutable state. -/
theorem c8_amended_mutation_profile :
    (∀ (h : FDHeap) (t : ToPathSt) (d : Option (List (String × JValue))) (i : Nat),
        i < h.next → (ToPath.form h t d).1.read i = h.read i)
    ∧ (∀ (h : FDHeap) (t : ToPathSt) (d : Option JValue), (ToPath.json h t d).1 = h)
    ∧ (∀ (h : FDHeap) (r : FormReq) (k : String) (v : FormValue),
        (FormRequest.append h r k v).1.read r.fdRef = h.read r.fdRef ++ [(k, v)]
        ∧ (FormRequest.append h r k v).2.fdRef = r.fdRef)
    ∧ (∀ (s : AppendSt) (k : String) (v : JValue),
        (NextBodyAppend.set s k v).2 = (NextBodyAppend.set s k v).1
        ∧ (NextBodyAppend.set s k v).1.data = recSpreadSet s.data k v
        ∧ objGet (NextBodyAppend.set s k v).2.data k = some v)
    ∧ (∀ (s : AppendSt) (k : String),
        (NextBodyAppend.deleteKey s k).2 = (NextBodyAppend.deleteKey s k).1
        ∧ (NextBodyAppend.deleteKey s k).1.data = s.data.filter (fun p => p.1 ≠ k)
        ∧ objGet (NextBodyAppend.deleteKey s k).2.data k = none)
    ∧ (∀ (s : AppendSt) (hs : List (String × String)) (k v : String),
        (NextBodyAppend.headersStep s hs).2 = (NextBodyAppend.headersStep s hs).1
        ∧ (NextBodyAppend.headersStep s hs).1.headers = recSpreadMerge s.headers hs
        ∧ (hs = [(k, v)] →
            uspGet (NextBodyAppend.headersStep s hs).2.headers k = some v)) := by
  refine ⟨?_, fun _ _ _ => rfl, ?_, ?_, ?_, ?_⟩
  · intro h t d i hi
    simp only [ToPath.form, FDHeap.alloc, FDHeap.read]
    rw [if_neg (Nat.ne_of_lt hi)]
  · intro h r k v
    exact ⟨by simp [FormRequest.append, FDHeap.write, FDHeap.read], rfl⟩
  · intro s k v
    exact ⟨rfl, rfl, objGet_recSpreadSet s.data k v⟩
  · intro s k
    exact ⟨rfl, rfl, objGet_filter_ne s.data k⟩
  · intro s hs k v
    refine ⟨rfl, rfl, ?_⟩
    intro hsingle
    subst hsingle
    exact uspGet_recSpreadMerge_single s.headers k v

/-- **C6.** The query encoder uses last-write-wins `set` semantics: a
successful encoding contains at most one pair per final key name (the key
list of the result is duplicate-free), and whenever a later entry writes to
an already-present final key, `get` reads back the later value. -/
theorem c6_query_last_write_wins :
    (∀ (params : List (String × JValue)) (pfx : String)
        (res : List (String × String)),
      setSearchParams params pfx = Except.ok res → (res.map Prod.fst).Nodup)
    ∧ (∀ (ps : List (String × String)) (k v : String),
      uspGet (uspSet ps k v) k = some v) := by
  constructor
  · intro params pfx res heq
    exact setSearchParamsLoop_preserves_nodup params pfx [] res (by simp) heq
  · exact uspGet_uspSet

/-- Witness for C6: the mapping `\x7ba: \x7bb: 1\x7d, "a[b]": 2\x7d`
flattens both entries to the final key `a[b]`; only the later value `2`
survives, and the result's key list is duplicate-free. -/
theorem c6_witness :
    setSearchParams [("a", JValue.obj [("b", JValue.num 1)]), ("a[b]", JValue.num 2)]
        = Except.ok [("a[b]", "2")]
    ∧ (([("a[b]", "2")] : List (String × String)).map Prod.fst).Nodup
    ∧ uspGet (uspSet [("a[b]", "1")] "a[b]" "2") "a[b]" = some "2" := by
  refine ⟨rfl, ?_, ?_⟩
  · exact c6_query_last_write_wins.1
      [("a", JValue.obj [("b", JValue.num 1)]), ("a[b]", JValue.num 2)] ""
      [("a[b]", "2")] rfl
  · exact c6_query_last_write_wins.2 [("a[b]", "1")] "a[b]" "2"

/-- Witness for the amended C8 at a concrete heap, builder, index and
singleton header list. -/
theorem c8_amended_witness :
    ((ToPath.form heap0
        ⟨"/p", "https://h", [], Method.POST, [], none⟩ none).1.read 0
      = heap0.read 0)
    ∧ uspGet (NextBodyAppend.headersStep ⟨[], []⟩
        [("Authorization", "Bearer t")]).2.headers "Authorization"
      = some "Bearer t" := by
  constructor
  · exact c8_amended_mutation_profile.1 heap0
      ⟨"/p", "https://h", [], Method.POST, [], none⟩ none 0 (by decide)
  · exact (c8_amended_mutation_profile.2.2.2.2.2 ⟨[], []⟩
      [("Authorization", "Bearer t")] "Authorization" "Bearer t").2.2 rfl
